import Mathlib

/-!
Verification of the schema-to-MDX document generator.

The development shallowly embeds the generator (`generateAll`,
`generateOperations`, `generateTypes`, `getOperationType` and the `write`
helper) over an explicit model of an in-memory GraphQL schema graph, and the
title formatter of the utilities module, and proves the specified properties
about them.
-/

set_option maxRecDepth 10000

namespace GraphQLDocs

/-- An argument of a GraphQL field: its name together with the printed form
of its type, i.e. the result of the source's `arg.type.toString()`. -/
structure GArg where
  name : String
  typeSignature : String
deriving DecidableEq

/-- A field of a GraphQL object type.  `typeSignature` is the printed form of
the field's result type (`field.type.toString()`), `description` is `none`
when the schema carries no description for the field (JavaScript
`null`/`undefined`). -/
structure GField where
  name : String
  description : Option String
  args : List GArg
  typeSignature : String
deriving DecidableEq

/-- A GraphQL object type.  `ref` models JavaScript object identity: the
runtime compares types with `===`, which is reference equality, so two
object types are the same node of the schema graph exactly when their `ref`
tags agree.  `fields` is ordered by declaration (insertion) order, the order
`Object.entries(type.getFields())` iterates in. -/
structure GObjectType where
  ref : Nat
  name : String
  description : Option String
  fields : List GField
deriving DecidableEq

/-- A named type of the schema type map: either an object type or any other
named type (scalar, enum, union, interface, input type), matching the
source's `type instanceof GraphQLObjectType` discrimination. -/
inductive GNamedType where
  | object (t : GObjectType)
  | other (name : String)
deriving DecidableEq

/-- The in-memory schema graph handed to the walker by the schema loader:
the three optional root operation types and the full type map in iteration
order (keyed by type name). -/
structure GSchema where
  queryType : Option GObjectType
  mutationType : Option GObjectType
  subscriptionType : Option GObjectType
  typeMap : List (String × GNamedType)
deriving DecidableEq

/-- JavaScript strict equality of an object type against an optional root
type: `t === root` is reference equality, and is false when the root is
absent (`null`/`undefined`). -/
def isSameRef (t : GObjectType) (root : Option GObjectType) : Bool :=
  match root with
  | none => false
  | some r => t.ref == r.ref

/-- Port of `getOperationType` (`src/unnamed/part_000`, lines 145-159):
classify the type owning a field by identity comparison against the three
root types, in the order query, mutation, subscription, else `"type"`. -/
def getOperationType (schema : GSchema) (fieldType : GObjectType) : String :=
  if isSameRef fieldType schema.queryType then "query"
  else if isSameRef fieldType schema.mutationType then "mutation"
  else if isSameRef fieldType schema.subscriptionType then "subscription"
  else "type"

/-- The whitespace test of JavaScript `String.prototype.trim`, restricted to
the ASCII whitespace that can occur here. -/
def wsChar (c : Char) : Bool :=
  c = ' ' || c = '\t' || c = '\r' || c = '\n'

/-- Model of JavaScript `String.prototype.trim`: drop whitespace from both
ends of the string. -/
def jsTrim (s : String) : String :=
  ⟨(s.data.dropWhile wsChar).rdropWhile wsChar⟩

/-- Model of JavaScript `Array.prototype.join('\n')`. -/
def joinNl : List String → String
  | [] => ""
  | [s] => s
  | s₁ :: s₂ :: rest => s₁ ++ "\n" ++ joinNl (s₂ :: rest)

/-- The rendered argument strings built at lines 61-63 of
`src/unnamed/part_000`: one string `name: typeSignature` per argument, in
argument order. -/
def opArgStrings (f : GField) : List String :=
  f.args.map (fun arg => arg.name ++ ": " ++ arg.typeSignature)

/-- The template literal at lines 64-76 of `src/unnamed/part_000`, before
trimming. -/
def opMdxRaw (f : GField) : String :=
  "\n---\ntitle: " ++ f.name ++ "\ndescription: "
    ++ (f.description.getD ("Description for " ++ f.name))
    ++ "\n---\n\n# " ++ f.name ++ "\n\n\n"
    ++ (f.description.getD "")
    ++ "\n\n"
    ++ (if (opArgStrings f).length > 0 then
          "## Arguments\n\n" ++ joinNl ((opArgStrings f).map (fun a => "- " ++ a))
        else "")
    ++ "\n      "

/-- The MDX content rendered for one operation field: the template literal,
followed by `.trim()`. -/
def opMdxContent (f : GField) : String :=
  jsTrim (opMdxRaw f)

/-- One element of the list returned by `generateOperations`: the field
name, the operation kind string, and the rendered MDX content. -/
structure Operation where
  name : String
  type : String
  content : String
deriving DecidableEq

/-- The `processFields` closure of `generateOperations`
(`src/unnamed/part_000`, lines 57-84): nothing for an absent root type, one
operation per field otherwise, in declaration order. -/
def processFields (schema : GSchema) (t : Option GObjectType) : List Operation :=
  match t with
  | none => []
  | some ty =>
      ty.fields.map (fun f =>
        { name := f.name
          type := getOperationType schema ty
          content := opMdxContent f })

/-- Port of `generateOperations` (`src/unnamed/part_000`, lines 46-91): the
query root's fields, then the mutation root's, then the subscription
root's. -/
def generateOperations (schema : GSchema) : List Operation :=
  processFields schema schema.queryType
    ++ processFields schema schema.mutationType
    ++ processFields schema schema.subscriptionType

/-- The rendered field-definition strings of `generateTypes`
(`src/unnamed/part_000`, lines 108-113). -/
def typeFieldDefs (t : GObjectType) : List String :=
  t.fields.map (fun f => "- " ++ f.name ++ ": " ++ f.typeSignature)

/-- The template literal at lines 115-127 of `src/unnamed/part_000` (note
the two-space indentation in front of the heading, description and field
section), before trimming. -/
def typeMdxRaw (typeName : String) (t : GObjectType) : String :=
  "\n---\ntitle: " ++ typeName
    ++ "\ndescription: Type definition for " ++ typeName
    ++ "\n---\n\n  # " ++ typeName ++ "\n\n  "
    ++ (t.description.getD "")
    ++ "\n\n  "
    ++ (if (typeFieldDefs t).length > 0 then
          "## Fields\n\n" ++ joinNl (typeFieldDefs t)
        else "")
    ++ "\n\n "

/-- The MDX content rendered for one object type: the template literal,
followed by `.trim()`. -/
def typeMdxContent (typeName : String) (t : GObjectType) : String :=
  jsTrim (typeMdxRaw typeName t)

/-- One element of the list returned by `generateTypes`. -/
structure TypeDoc where
  name : String
  content : String
deriving DecidableEq

/-- Model of JavaScript `String.prototype.startsWith`. -/
def strStartsWith (s p : String) : Bool :=
  p.data.isPrefixOf s.data

/-- The filter applied to one type-map entry by `generateTypes`
(`src/unnamed/part_000`, lines 101-107): object type, name not beginning
with the introspection prefix, and not identical (by reference) to any of
the three root types. -/
def keepsTypeEntry (schema : GSchema) (typeName : String) (t : GNamedType) : Bool :=
  match t with
  | .other _ => false
  | .object o =>
      !(strStartsWith typeName "__")
        && !(isSameRef o schema.queryType)
        && !(isSameRef o schema.mutationType)
        && !(isSameRef o schema.subscriptionType)

/-- Port of `generateTypes` (`src/unnamed/part_000`, lines 93-137): walk the
type map in iteration order and render one document per kept entry. -/
def generateTypes (schema : GSchema) : List TypeDoc :=
  schema.typeMap.filterMap (fun e =>
    match e with
    | (typeName, GNamedType.object o) =>
        if !(strStartsWith typeName "__")
            && !(isSameRef o schema.queryType)
            && !(isSameRef o schema.mutationType)
            && !(isSameRef o schema.subscriptionType) then
          some { name := typeName, content := typeMdxContent typeName o }
        else none
    | (_, GNamedType.other _) => none)

/-- The relative output path of one operation document: the string
interpolated at line 26 of `src/unnamed/part_000` before joining with the
output root. -/
def operationPath (o : Operation) : String :=
  o.type ++ "/" ++ o.name ++ ".mdx"

/-- The relative output path of one type document (line 31). -/
def typePath (d : TypeDoc) : String :=
  "types/" ++ d.name ++ ".mdx"

/-- All relative output paths emitted by one `generateAll` run, in emission
order: operation documents first, then type documents. -/
def relOutputPaths (schema : GSchema) : List String :=
  (generateOperations schema).map operationPath
    ++ (generateTypes schema).map typePath

/-- Model of `node:path` `join(output, rel)` for the shapes occurring here. -/
def pathJoin (a b : String) : String := a ++ "/" ++ b

/-- Model of `node:path` `dirname`: everything before the final slash. -/
def dirOf (p : String) : String :=
  ⟨(((p.data.reverse.dropWhile (fun c => !(c = '/')))).drop 1).reverse⟩

/-- One observable step of a `generateAll` run: a document being rendered
and collected in memory, a filesystem effect (directory creation or file
write), or the schema loader failing. -/
inductive Event where
  | docGenerated (name : String)
  | mkdirCall (path : String)
  | writeCall (path : String) (content : String)
  | parseFailed (msg : String)
deriving DecidableEq

/-- Whether an event is the in-memory rendering of a document. -/
def isGenEvent : Event → Bool
  | .docGenerated _ => true
  | _ => false

/-- Whether an event touches the filesystem. -/
def isFsEvent : Event → Bool
  | .mkdirCall _ => true
  | .writeCall _ _ => true
  | _ => false

/-- The `write` helper (`src/unnamed/part_000`, lines 36-39): create the
parent directory, then write the file. -/
def writeEvents (path content : String) : List Event :=
  [.mkdirCall (dirOf path), .writeCall path content]

/-- The event trace of `generateAll` (`src/unnamed/part_000`, lines 10-34).
A failed schema load raises before anything else happens; otherwise the
operation documents are all rendered (line 22), then the type documents
(line 23), and only then does the first loop write them out in order. -/
def generateAllTrace (loaded : Except String GSchema) (output : String) : List Event :=
  match loaded with
  | .error msg => [.parseFailed msg]
  | .ok schema =>
      let operations := generateOperations schema
      let types := generateTypes schema
      operations.map (fun o => .docGenerated o.name)
        ++ types.map (fun t => .docGenerated t.name)
        ++ operations.flatMap (fun o =>
            writeEvents (pathJoin output (operationPath o)) o.content)
        ++ types.flatMap (fun t =>
            writeEvents (pathJoin output (typePath t)) t.content)

/-- The paths of the file writes of a trace, in order. -/
def fsWritePaths (trace : List Event) : List String :=
  trace.filterMap (fun e =>
    match e with
    | .writeCall p _ => some p
    | _ => none)

/-- One step of the title formatter: the first character is uppercased, a
hyphen becomes a segment boundary, an uppercase letter following a
lowercase letter or a digit opens a new segment, everything else extends
the current segment.  State: completed segments (reversed), current
segment (reversed), previous character. -/
def idSegStep (st : List (List Char) × List Char × Char) (c : Char) :
    List (List Char) × List Char × Char :=
  let (done, cur, prev) := st
  if c = '-' then (cur.reverse :: done, [], c)
  else if c.isUpper && (prev.isLower || prev.isDigit) then
    (cur.reverse :: done, [c], c)
  else (done, c :: cur, c)

/-- Uppercase the first character of a segment. -/
def capFirst : List Char → List Char
  | [] => []
  | c :: cs => c.toUpper :: cs

/-- Model of `Array.prototype.join(' ')`. -/
def joinSpace : List String → String
  | [] => ""
  | [s] => s
  | s₁ :: s₂ :: rest => s₁ ++ " " ++ joinSpace (s₂ :: rest)

/-- Modelled from the spec: the Title Formatter `idToTitle`
(`utils/id-to-title`), whose implementation is not among the source files —
only its unit test is.  Follows the spec's section 4.1 steps 1 and 3-5
(split before an uppercase letter that follows a lowercase letter or digit,
treat hyphens as boundaries, capitalize each segment, join with single
spaces) as constrained by the testable properties of section 8 and the unit
test, which both fix `idToTitle "requestId30" = "Request Id30"` — no
boundary before a digit sequence. -/
def idToTitle (s : String) : String :=
  let st := s.data.foldl idSegStep ([], [], '-')
  joinSpace (((st.2.1.reverse :: st.1).reverse).map (fun seg => ⟨capFirst seg⟩))

/-! ### Generic helpers about strings, trimming and joining -/

theorem strData_append (a b : String) : (a ++ b).data = a.data ++ b.data := rfl

/-- The string ends in a character and that character is not whitespace. -/
def endsNonWsB (s : String) : Bool :=
  match s.data.getLast? with
  | none => false
  | some c => !(wsChar c)

/-- A sane member name: nonempty and free of whitespace, as GraphQL names
(letters, digits, underscores) always are. -/
def saneNameB (n : String) : Bool :=
  !(n.data.isEmpty) && n.data.all (fun c => !(wsChar c))

/-- The string contains no hash character. -/
def hashFreeB (s : String) : Bool :=
  s.data.all (fun c => !(c = '#'))

theorem endsNonWsB_getLast {s : String} (h : endsNonWsB s = true) :
    ∀ c, s.data.getLast? = some c → wsChar c = false := by
  intro c hc
  unfold endsNonWsB at h
  rw [hc] at h
  simpa using h

theorem endsNonWsB_ne_nil {s : String} (h : endsNonWsB s = true) : s.data ≠ [] := by
  intro h0
  unfold endsNonWsB at h
  rw [h0] at h
  simp at h

theorem saneNameB_ne_nil {n : String} (h : saneNameB n = true) : n.data ≠ [] := by
  unfold saneNameB at h
  intro h0
  rw [h0] at h
  simp at h

theorem saneNameB_nonWs {n : String} (h : saneNameB n = true) :
    ∀ c ∈ n.data, wsChar c = false := by
  unfold saneNameB at h
  intro c hc
  have h2 := (Bool.and_eq_true _ _).mp h |>.2
  rw [List.all_eq_true] at h2
  simpa using h2 c hc

theorem saneNameB_endsNonWs {n : String} (h : saneNameB n = true) :
    endsNonWsB n = true := by
  have hne := saneNameB_ne_nil h
  unfold endsNonWsB
  rw [List.getLast?_eq_getLast _ hne]
  simp [saneNameB_nonWs h _ (List.getLast_mem hne)]

theorem hashFreeB_count {s : String} (h : hashFreeB s = true) :
    s.data.count '#' = 0 := by
  rw [List.count_eq_zero]
  intro hmem
  unfold hashFreeB at h
  rw [List.all_eq_true] at h
  simpa using h _ hmem

theorem rdropWhile_ws_append {A : List Char} : ∀ {W : List Char},
    (∀ c ∈ W, wsChar c = true) →
    (A ++ W).rdropWhile wsChar = A.rdropWhile wsChar := by
  intro W
  induction W using List.reverseRecOn with
  | nil => intro _; simp
  | append_singleton W' x ih =>
      intro hW
      rw [← List.append_assoc, List.rdropWhile_concat_pos _ _ x (hW x (by simp))]
      exact ih (fun c hc => hW c (by simp [hc]))

theorem rdropWhile_ws_eq_self {A : List Char}
    (hA : ∀ c, A.getLast? = some c → wsChar c = false) :
    A.rdropWhile wsChar = A := by
  rw [List.rdropWhile_eq_self_iff]
  intro hl
  have := hA (A.getLast hl) (List.getLast?_eq_getLast _ hl)
  simp [this]

/-- Right-trimming a string that is a non-whitespace-ending core followed by
whitespace yields the core. -/
theorem trimEnd (A W : List Char) (hW : ∀ c ∈ W, wsChar c = true)
    (hA : ∀ c, A.getLast? = some c → wsChar c = false) :
    (A ++ W).rdropWhile wsChar = A := by
  rw [rdropWhile_ws_append hW, rdropWhile_ws_eq_self hA]

theorem lastNonWs_append {A B : List Char} (hBne : B ≠ [])
    (hB : ∀ c, B.getLast? = some c → wsChar c = false) :
    ∀ c, (A ++ B).getLast? = some c → wsChar c = false := by
  intro c hc
  rw [List.getLast?_append_of_ne_nil _ hBne] at hc
  exact hB c hc

theorem joinNl_data_getLast? : ∀ (l : List String) (s : String), s.data ≠ [] →
    ((joinNl (l ++ [s])).data).getLast? = s.data.getLast? := by
  intro l
  induction l with
  | nil => intro s _; rfl
  | cons a l ih =>
      intro s hs
      cases l with
      | nil =>
          show ((a ++ "\n" ++ joinNl [s]).data).getLast? = _
          show ((a ++ "\n" ++ s).data).getLast? = _
          rw [strData_append, List.getLast?_append_of_ne_nil _ hs]
      | cons b l' =>
          show ((a ++ "\n" ++ joinNl ((b :: l') ++ [s])).data).getLast? = _
          have hx := ih s hs
          have hne : (joinNl ((b :: l') ++ [s])).data ≠ [] := by
            intro h0
            rw [h0] at hx
            have : s.data.getLast? = none := hx.symm
            rw [List.getLast?_eq_none_iff] at this
            exact hs this
          rw [strData_append, List.getLast?_append_of_ne_nil _ hne, hx]

theorem jsTrim_data_sublist (s : String) : (jsTrim s).data.Sublist s.data := by
  have h1 : (jsTrim s).data = (s.data.dropWhile wsChar).rdropWhile wsChar := rfl
  rw [h1]
  exact ((List.rdropWhile_prefix _ _).sublist).trans ((List.dropWhile_suffix _).sublist)

theorem not_infix_of_count_hash_lt {pat l : List Char}
    (h : l.count '#' < pat.count '#') : ¬ pat <:+: l := by
  intro hinf
  have := hinf.sublist.count_le '#'
  omega

theorem getLast?_append_or (l₁ l₂ : List Char) :
    (l₁ ++ l₂).getLast? = l₂.getLast?.or l₁.getLast? := by
  induction l₂ using List.reverseRecOn with
  | nil => simp
  | append_singleton W x _ =>
      rw [← List.append_assoc]
      simp [List.getLast?_concat]

theorem getLast?_cons_or (a : Char) (l : List Char) :
    (a :: l).getLast? = l.getLast?.or (some a) :=
  getLast?_append_or [a] l

theorem jsTrim_data (s : String) :
    (jsTrim s).data = (s.data.dropWhile wsChar).rdropWhile wsChar := rfl

theorem endsNonWsB_some {s : String} (h : endsNonWsB s = true) :
    ∃ c, s.data.getLast? = some c ∧ wsChar c = false := by
  cases hgl : s.data.getLast? with
  | none => unfold endsNonWsB at h; rw [hgl] at h; simp at h
  | some c =>
      refine ⟨c, rfl, ?_⟩
      unfold endsNonWsB at h
      rw [hgl] at h
      simpa using h

theorem saneNameB_some {n : String} (h : saneNameB n = true) :
    ∃ c, n.data.getLast? = some c ∧ wsChar c = false :=
  endsNonWsB_some (saneNameB_endsNonWs h)

theorem strAppend_getLast? (a b : String) {c : Char}
    (hb : b.data.getLast? = some c) : (a ++ b).data.getLast? = some c := by
  rw [strData_append, getLast?_append_or, hb]
  rfl

theorem joinNl_concat_head_getLast (head : String) (L : List String) (s : String)
    (hs : s.data ≠ []) :
    ((head ++ joinNl (L ++ [s])).data).getLast? = s.data.getLast? := by
  rw [strData_append, getLast?_append_or, joinNl_data_getLast? L s hs]
  cases hgl : s.data.getLast? with
  | none => rw [List.getLast?_eq_none_iff] at hgl; exact absurd hgl hs
  | some c => rfl

/-- Trimming a string of the shape newline, dash-headed
non-whitespace-ending core, whitespace tail, yields the core.  Every
rendered template has this shape. -/
theorem jsTrim_newline_core (core ws : String)
    (hhead : core.data.head? = some '-')
    (hW : ∀ c ∈ ws.data, wsChar c = true)
    (hA : ∀ c, core.data.getLast? = some c → wsChar c = false) :
    jsTrim ("\n" ++ (core ++ ws)) = core := by
  obtain ⟨rest, hrest⟩ : ∃ rest, core.data = '-' :: rest := by
    cases h : core.data with
    | nil => rw [h] at hhead; simp at hhead
    | cons a l =>
        rw [h] at hhead
        simp at hhead
        exact ⟨l, by rw [hhead]⟩
  refine String.ext ?_
  rw [jsTrim_data]
  have h1 : ("\n" ++ (core ++ ws)).data = '\n' :: (core.data ++ ws.data) := rfl
  rw [h1, List.dropWhile_cons_of_pos (by decide), hrest, List.cons_append,
    List.dropWhile_cons_of_neg (by decide), ← List.cons_append, ← hrest]
  exact trimEnd _ _ hW hA

/-! ### Closed forms of the rendered documents -/

/-- The part shared by every operation document: front matter and heading. -/
def opFront (f : GField) : String :=
  "---\ntitle: " ++ f.name ++ "\ndescription: "
    ++ (f.description.getD ("Description for " ++ f.name))
    ++ "\n---\n\n# " ++ f.name

/-- The Arguments section as rendered by the template (line 75). -/
def opArgsSection (f : GField) : String :=
  "## Arguments\n\n" ++ joinNl ((opArgStrings f).map (fun a => "- " ++ a))

/-- What follows the heading in a trimmed operation document, by case on
description and argument list. -/
def opTailStr (f : GField) : String :=
  match f.description, f.args with
  | none, [] => ""
  | some d, [] => "\n\n\n" ++ d
  | none, _ :: _ => "\n\n\n\n\n" ++ opArgsSection f
  | some d, _ :: _ => "\n\n\n" ++ d ++ "\n\n" ++ opArgsSection f

theorem opArgsSection_getLast {f : GField} (hargs : f.args ≠ [])
    (ha : ∀ a ∈ f.args, endsNonWsB a.typeSignature = true) :
    ∃ c, (opArgsSection f).data.getLast? = some c ∧ wsChar c = false := by
  obtain ⟨as, a, hcons⟩ : ∃ as a, f.args = as ++ [a] := by
    rcases List.eq_nil_or_concat f.args with h | ⟨as, a, h⟩
    · exact absurd h hargs
    · exact ⟨as, a, by simpa [List.concat_eq_append] using h⟩
  obtain ⟨c, hc, hcw⟩ := endsNonWsB_some (ha a (by rw [hcons]; simp))
  have hlast : (("- " ++ (a.name ++ ": " ++ a.typeSignature)) : String).data.getLast?
      = some c := by
    refine strAppend_getLast? _ _ ?_
    exact strAppend_getLast? _ _ hc
  have hne : (("- " ++ (a.name ++ ": " ++ a.typeSignature)) : String).data ≠ [] := by
    rw [strData_append]
    exact List.append_ne_nil_of_left_ne_nil (by decide) _
  refine ⟨c, ?_, hcw⟩
  unfold opArgsSection opArgStrings
  rw [hcons, List.map_append, List.map_append]
  simp only [List.map_cons, List.map_nil]
  rw [joinNl_concat_head_getLast _ _ _ hne, hlast]

/-- Closed form of a trimmed operation document: front matter and heading,
then the tail determined by description and argument list, under the sanity
assumptions that the name is a GraphQL name and descriptions and printed
type signatures do not end in whitespace. -/
theorem opMdxContent_eq (f : GField)
    (hn : saneNameB f.name = true)
    (hd : ∀ d, f.description = some d → endsNonWsB d = true)
    (ha : ∀ a ∈ f.args, endsNonWsB a.typeSignature = true) :
    opMdxContent f = opFront f ++ opTailStr f := by
  obtain ⟨n, D, args, sig⟩ := f
  obtain ⟨cn, hcn, hcnw⟩ := saneNameB_some hn
  cases D with
  | none =>
      cases args with
      | nil =>
          simp only [opMdxContent, opMdxRaw]
          refine Eq.trans (congrArg jsTrim ?_)
            (jsTrim_newline_core _ "\n\n\n\n\n\n      " rfl (by decide) ?_)
          · exact String.ext (by
              simp [opFront, opTailStr, strData_append, opArgStrings])
          · intro c' hc'
            have hgl : (opFront ⟨n, none, [], sig⟩
                ++ opTailStr ⟨n, none, [], sig⟩).data.getLast? = some cn := by
              simp [opFront, opTailStr, strData_append, getLast?_append_or,
                getLast?_cons_or, hcn]
            rw [hgl] at hc'
            cases hc'
            exact hcnw
      | cons a as =>
          obtain ⟨cs, hcs, hcsw⟩ :=
            opArgsSection_getLast (f := ⟨n, none, a :: as, sig⟩) (by simp) ha
          simp only [opMdxContent, opMdxRaw]
          refine Eq.trans (congrArg jsTrim ?_)
            (jsTrim_newline_core _ "\n      " rfl (by decide) ?_)
          · exact String.ext (by
              simp [opFront, opTailStr, strData_append, opArgsSection, opArgStrings])
          · intro c' hc'
            have hgl : (opFront ⟨n, none, a :: as, sig⟩
                ++ opTailStr ⟨n, none, a :: as, sig⟩).data.getLast? = some cs := by
              simp [opFront, opTailStr, strData_append, getLast?_append_or,
                getLast?_cons_or, hcs]
            rw [hgl] at hc'
            cases hc'
            exact hcsw
  | some d =>
      obtain ⟨cd, hcd, hcdw⟩ := endsNonWsB_some (hd d rfl)
      cases args with
      | nil =>
          simp only [opMdxContent, opMdxRaw]
          refine Eq.trans (congrArg jsTrim ?_)
            (jsTrim_newline_core _ "\n\n\n      " rfl (by decide) ?_)
          · exact String.ext (by
              simp [opFront, opTailStr, strData_append, opArgStrings])
          · intro c' hc'
            have hgl : (opFront ⟨n, some d, [], sig⟩
                ++ opTailStr ⟨n, some d, [], sig⟩).data.getLast? = some cd := by
              simp [opFront, opTailStr, strData_append, getLast?_append_or,
                getLast?_cons_or, hcd]
            rw [hgl] at hc'
            cases hc'
            exact hcdw
      | cons a as =>
          obtain ⟨cs, hcs, hcsw⟩ :=
            opArgsSection_getLast (f := ⟨n, some d, a :: as, sig⟩) (by simp) ha
          simp only [opMdxContent, opMdxRaw]
          refine Eq.trans (congrArg jsTrim ?_)
            (jsTrim_newline_core _ "\n      " rfl (by decide) ?_)
          · exact String.ext (by
              simp [opFront, opTailStr, strData_append, opArgsSection, opArgStrings])
          · intro c' hc'
            have hgl : (opFront ⟨n, some d, a :: as, sig⟩
                ++ opTailStr ⟨n, some d, a :: as, sig⟩).data.getLast? = some cs := by
              simp [opFront, opTailStr, strData_append, getLast?_append_or,
                getLast?_cons_or, hcs]
            rw [hgl] at hc'
            cases hc'
            exact hcsw

/-! ### Schema-level helpers -/

/-- Two optional root types, when both present, are different graph nodes. -/
def twoRootsDiffer : Option GObjectType → Option GObjectType → Bool
  | some a, some b => !(a.ref == b.ref)
  | _, _ => true

/-- The three root operation types are pairwise different graph nodes, as
the GraphQL specification requires of a valid schema. -/
def rootsDistinctB (s : GSchema) : Bool :=
  twoRootsDiffer s.queryType s.mutationType
    && twoRootsDiffer s.queryType s.subscriptionType
    && twoRootsDiffer s.mutationType s.subscriptionType

theorem twoRootsDiffer_elim {a b : GObjectType} {oa ob : Option GObjectType}
    (h : twoRootsDiffer oa ob = true) (ha : oa = some a) (hb : ob = some b) :
    a.ref ≠ b.ref := by
  subst ha
  subst hb
  simpa [twoRootsDiffer] using h

theorem rootsDistinctB_qm {s : GSchema} (h : rootsDistinctB s = true) :
    ∀ q m, s.queryType = some q → s.mutationType = some m → q.ref ≠ m.ref := by
  intro q m hq hm
  unfold rootsDistinctB at h
  exact twoRootsDiffer_elim (by simp_all [Bool.and_eq_true]) hq hm

theorem rootsDistinctB_qb {s : GSchema} (h : rootsDistinctB s = true) :
    ∀ q b, s.queryType = some q → s.subscriptionType = some b → q.ref ≠ b.ref := by
  intro q b hq hb
  unfold rootsDistinctB at h
  exact twoRootsDiffer_elim (by simp_all [Bool.and_eq_true]) hq hb

theorem rootsDistinctB_mb {s : GSchema} (h : rootsDistinctB s = true) :
    ∀ m b, s.mutationType = some m → s.subscriptionType = some b → m.ref ≠ b.ref := by
  intro m b hm hb
  unfold rootsDistinctB at h
  exact twoRootsDiffer_elim (by simp_all [Bool.and_eq_true]) hm hb

theorem getOperationType_query {s : GSchema} {q : GObjectType}
    (hq : s.queryType = some q) : getOperationType s q = "query" := by
  unfold getOperationType
  rw [if_pos]
  rw [hq]
  simp [isSameRef]

theorem getOperationType_mutation {s : GSchema} {m : GObjectType}
    (hm : s.mutationType = some m)
    (hqm : ∀ q, s.queryType = some q → q.ref ≠ m.ref) :
    getOperationType s m = "mutation" := by
  unfold getOperationType
  have h1 : isSameRef m s.queryType = false := by
    cases hq : s.queryType with
    | none => rfl
    | some q => simpa [isSameRef] using fun h => hqm q hq h.symm
  rw [h1]
  have h2 : isSameRef m s.mutationType = true := by
    rw [hm]; simp [isSameRef]
  rw [h2]
  rfl

theorem getOperationType_subscription {s : GSchema} {b : GObjectType}
    (hb : s.subscriptionType = some b)
    (hqb : ∀ q, s.queryType = some q → q.ref ≠ b.ref)
    (hmb : ∀ m, s.mutationType = some m → m.ref ≠ b.ref) :
    getOperationType s b = "subscription" := by
  unfold getOperationType
  have h1 : isSameRef b s.queryType = false := by
    cases hq : s.queryType with
    | none => rfl
    | some q => simpa [isSameRef] using fun h => hqb q hq h.symm
  have h2 : isSameRef b s.mutationType = false := by
    cases hm : s.mutationType with
    | none => rfl
    | some m => simpa [isSameRef] using fun h => hmb m hm h.symm
  rw [h1, h2]
  have h3 : isSameRef b s.subscriptionType = true := by
    rw [hb]; simp [isSameRef]
  rw [h3]
  rfl

theorem getOperationType_type {s : GSchema} {t : GObjectType}
    (hq : ∀ r, s.queryType = some r → r.ref ≠ t.ref)
    (hm : ∀ r, s.mutationType = some r → r.ref ≠ t.ref)
    (hb : ∀ r, s.subscriptionType = some r → r.ref ≠ t.ref) :
    getOperationType s t = "type" := by
  unfold getOperationType
  have h1 : isSameRef t s.queryType = false := by
    cases h : s.queryType with
    | none => rfl
    | some r => simpa [isSameRef] using fun he => hq r h he.symm
  have h2 : isSameRef t s.mutationType = false := by
    cases h : s.mutationType with
    | none => rfl
    | some r => simpa [isSameRef] using fun he => hm r h he.symm
  have h3 : isSameRef t s.subscriptionType = false := by
    cases h : s.subscriptionType with
    | none => rfl
    | some r => simpa [isSameRef] using fun he => hb r h he.symm
  rw [h1, h2, h3]
  rfl

/-- The part shared by every type document: front matter and the two-space
indented heading.  The front-matter description is always the synthesized
one, regardless of the type's own description. -/
def typeFront (tn : String) : String :=
  "---\ntitle: " ++ tn ++ "\ndescription: Type definition for " ++ tn
    ++ "\n---\n\n  # " ++ tn

/-- The Fields section as rendered by the template (line 125). -/
def typeFieldsSection (t : GObjectType) : String :=
  "## Fields\n\n" ++ joinNl (typeFieldDefs t)

/-- What follows the heading in a trimmed type document, by case on
description and field list. -/
def typeTailStr (t : GObjectType) : String :=
  match t.description, t.fields with
  | none, [] => ""
  | some d, [] => "\n\n  " ++ d
  | none, _ :: _ => "\n\n  \n\n  " ++ typeFieldsSection t
  | some d, _ :: _ => "\n\n  " ++ d ++ "\n\n  " ++ typeFieldsSection t

theorem typeFieldsSection_getLast {t : GObjectType} (hne : t.fields ≠ [])
    (hf : ∀ fl ∈ t.fields, endsNonWsB fl.typeSignature = true) :
    ∃ c, (typeFieldsSection t).data.getLast? = some c ∧ wsChar c = false := by
  obtain ⟨fs, fl, hcons⟩ : ∃ fs fl, t.fields = fs ++ [fl] := by
    rcases List.eq_nil_or_concat t.fields with h | ⟨fs, fl, h⟩
    · exact absurd h hne
    · exact ⟨fs, fl, by simpa [List.concat_eq_append] using h⟩
  obtain ⟨c, hc, hcw⟩ := endsNonWsB_some (hf fl (by rw [hcons]; simp))
  have hlast : (("- " ++ fl.name ++ ": " ++ fl.typeSignature) : String).data.getLast?
      = some c :=
    strAppend_getLast? _ _ hc
  have hnn : (("- " ++ fl.name ++ ": " ++ fl.typeSignature) : String).data ≠ [] := by
    intro h0
    rw [h0] at hlast
    simp at hlast
  refine ⟨c, ?_, hcw⟩
  unfold typeFieldsSection typeFieldDefs
  rw [hcons, List.map_append]
  simp only [List.map_cons, List.map_nil]
  rw [joinNl_concat_head_getLast _ _ _ hnn, hlast]

/-- Closed form of a trimmed type document, under the same sanity
assumptions as `opMdxContent_eq`. -/
theorem typeMdxContent_eq (tn : String) (t : GObjectType)
    (hn : saneNameB tn = true)
    (hd : ∀ d, t.description = some d → endsNonWsB d = true)
    (hf : ∀ fl ∈ t.fields, endsNonWsB fl.typeSignature = true) :
    typeMdxContent tn t = typeFront tn ++ typeTailStr t := by
  obtain ⟨r, tnm, D, fields⟩ := t
  obtain ⟨cn, hcn, hcnw⟩ := saneNameB_some hn
  cases D with
  | none =>
      cases fields with
      | nil =>
          simp only [typeMdxContent, typeMdxRaw]
          refine Eq.trans (congrArg jsTrim ?_)
            (jsTrim_newline_core _ "\n\n  \n\n  \n\n " rfl (by decide) ?_)
          · exact String.ext (by
              simp [typeFront, typeTailStr, strData_append, typeFieldDefs])
          · intro c' hc'
            have hgl : (typeFront tn
                ++ typeTailStr ⟨r, tnm, none, []⟩).data.getLast? = some cn := by
              simp [typeFront, typeTailStr, strData_append, getLast?_append_or,
                getLast?_cons_or, hcn]
            rw [hgl] at hc'
            cases hc'
            exact hcnw
      | cons fl fls =>
          obtain ⟨cs, hcs, hcsw⟩ :=
            typeFieldsSection_getLast (t := ⟨r, tnm, none, fl :: fls⟩) (by simp) hf
          simp only [typeMdxContent, typeMdxRaw]
          refine Eq.trans (congrArg jsTrim ?_)
            (jsTrim_newline_core _ "\n\n " rfl (by decide) ?_)
          · exact String.ext (by
              simp [typeFront, typeTailStr, strData_append, typeFieldsSection,
                typeFieldDefs])
          · intro c' hc'
            have hgl : (typeFront tn
                ++ typeTailStr ⟨r, tnm, none, fl :: fls⟩).data.getLast? = some cs := by
              simp [typeFront, typeTailStr, strData_append, getLast?_append_or,
                getLast?_cons_or, hcs]
            rw [hgl] at hc'
            cases hc'
            exact hcsw
  | some d =>
      obtain ⟨cd, hcd, hcdw⟩ := endsNonWsB_some (hd d rfl)
      cases fields with
      | nil =>
          simp only [typeMdxContent, typeMdxRaw]
          refine Eq.trans (congrArg jsTrim ?_)
            (jsTrim_newline_core _ "\n\n  \n\n " rfl (by decide) ?_)
          · exact String.ext (by
              simp [typeFront, typeTailStr, strData_append, typeFieldDefs])
          · intro c' hc'
            have hgl : (typeFront tn
                ++ typeTailStr ⟨r, tnm, some d, []⟩).data.getLast? = some cd := by
              simp [typeFront, typeTailStr, strData_append, getLast?_append_or,
                getLast?_cons_or, hcd]
            rw [hgl] at hc'
            cases hc'
            exact hcdw
      | cons fl fls =>
          obtain ⟨cs, hcs, hcsw⟩ :=
            typeFieldsSection_getLast (t := ⟨r, tnm, some d, fl :: fls⟩) (by simp) hf
          simp only [typeMdxContent, typeMdxRaw]
          refine Eq.trans (congrArg jsTrim ?_)
            (jsTrim_newline_core _ "\n\n " rfl (by decide) ?_)
          · exact String.ext (by
              simp [typeFront, typeTailStr, strData_append, typeFieldsSection,
                typeFieldDefs])
          · intro c' hc'
            have hgl : (typeFront tn
                ++ typeTailStr ⟨r, tnm, some d, fl :: fls⟩).data.getLast? = some cs := by
              simp [typeFront, typeTailStr, strData_append, getLast?_append_or,
                getLast?_cons_or, hcs]
            rw [hgl] at hc'
            cases hc'
            exact hcsw

/-! ### A concrete test schema used to instantiate the theorems -/

/-- The `getKey(id: ID): String` query field of the spec's end-to-end
example, carrying no description. -/
def fxGetKey : GField :=
  { name := "getKey"
    description := none
    args := [{ name := "id", typeSignature := "ID" }]
    typeSignature := "String" }

/-- A described query field without arguments. -/
def fxPing : GField :=
  { name := "ping"
    description := some "Health check."
    args := []
    typeSignature := "String" }

def fxQuery : GObjectType :=
  { ref := 0, name := "Query", description := none, fields := [fxGetKey, fxPing] }

def fxAddPet : GField :=
  { name := "addPet"
    description := none
    args := [{ name := "petName", typeSignature := "String!" }]
    typeSignature := "Pet" }

def fxMutation : GObjectType :=
  { ref := 1, name := "Mutation", description := none, fields := [fxAddPet] }

def fxPetAdded : GField :=
  { name := "petAdded", description := none, args := [], typeSignature := "Pet" }

def fxSubscription : GObjectType :=
  { ref := 2, name := "Subscription", description := none, fields := [fxPetAdded] }

def fxPet : GObjectType :=
  { ref := 3
    name := "Pet"
    description := some "A pet."
    fields := [{ name := "id", description := none, args := [], typeSignature := "ID" },
               { name := "petName", description := none, args := [], typeSignature := "String" }] }

/-- An object type with no fields. -/
def fxUnit : GObjectType :=
  { ref := 4, name := "Unit", description := none, fields := [] }

/-- A different graph node that shares the query root's name. -/
def fxQueryClone : GObjectType :=
  { ref := 77, name := "Query", description := none, fields := [] }

def fxSchema : GSchema :=
  { queryType := some fxQuery
    mutationType := some fxMutation
    subscriptionType := some fxSubscription
    typeMap := [("Query", .object fxQuery), ("Mutation", .object fxMutation),
                ("Subscription", .object fxSubscription), ("Pet", .object fxPet),
                ("Unit", .object fxUnit), ("String", .other "String"),
                ("__Schema", .object { ref := 9, name := "__Schema", description := none, fields := [] })] }

/-! ### The claims -/

/-- C2: every field defined directly on the query, mutation or subscription
root type is classified `query`, `mutation` or `subscription` respectively;
the classification compares the owning type with the schema's root types by
reference identity, so any object type matching no root by reference is
classified `type` — even one whose name equals the query root's name. -/
theorem claim_C2_root_kind_classification (s : GSchema)
    (hroots : rootsDistinctB s = true) :
    (∀ q, s.queryType = some q →
      ∀ o ∈ processFields s s.queryType, o.type = "query")
  ∧ (∀ m, s.mutationType = some m →
      ∀ o ∈ processFields s s.mutationType, o.type = "mutation")
  ∧ (∀ b, s.subscriptionType = some b →
      ∀ o ∈ processFields s s.subscriptionType, o.type = "subscription")
  ∧ (∀ t : GObjectType,
      (∀ r, s.queryType = some r → r.ref ≠ t.ref) →
      (∀ r, s.mutationType = some r → r.ref ≠ t.ref) →
      (∀ r, s.subscriptionType = some r → r.ref ≠ t.ref) →
      getOperationType s t = "type")
  ∧ (∀ t q, s.queryType = some q → t.name = q.name →
      (∀ r, s.queryType = some r → r.ref ≠ t.ref) →
      (∀ r, s.mutationType = some r → r.ref ≠ t.ref) →
      (∀ r, s.subscriptionType = some r → r.ref ≠ t.ref) →
      getOperationType s t = "type") := by
  refine ⟨?_, ?_, ?_, ?_, ?_⟩
  · intro q hq o ho
    rw [hq] at ho
    simp only [processFields, List.mem_map] at ho
    obtain ⟨f, _, rfl⟩ := ho
    exact getOperationType_query hq
  · intro m hm o ho
    rw [hm] at ho
    simp only [processFields, List.mem_map] at ho
    obtain ⟨f, _, rfl⟩ := ho
    exact getOperationType_mutation hm
      (fun q hq => rootsDistinctB_qm hroots q m hq hm)
  · intro b hb o ho
    rw [hb] at ho
    simp only [processFields, List.mem_map] at ho
    obtain ⟨f, _, rfl⟩ := ho
    exact getOperationType_subscription hb
      (fun q hq => rootsDistinctB_qb hroots q b hq hb)
      (fun m hm => rootsDistinctB_mb hroots m b hm hb)
  · intro t h1 h2 h3
    exact getOperationType_type h1 h2 h3
  · intro t q _ _ h1 h2 h3
    exact getOperationType_type h1 h2 h3

/-- Witness for C2 at the concrete schema: the mutation root's field is
classified `mutation`, and the type sharing the query root's name but not
its identity is classified `type`. -/
theorem claim_C2_witness :
    (∀ o ∈ processFields fxSchema fxSchema.mutationType, o.type = "mutation")
    ∧ getOperationType fxSchema fxQueryClone = "type" := by
  have h := claim_C2_root_kind_classification fxSchema (by decide)
  refine ⟨h.2.1 fxMutation rfl, ?_⟩
  refine h.2.2.2.2 fxQueryClone fxQuery rfl rfl ?_ ?_ ?_ <;>
    (intro r hr; simp only [fxSchema, Option.some.injEq] at hr; subst hr; decide)

theorem key_unique : ∀ {l : List (String × GNamedType)}, (l.map Prod.fst).Nodup →
    ∀ {k : String} {a b : GNamedType}, (k, a) ∈ l → (k, b) ∈ l → a = b := by
  intro l
  induction l with
  | nil =>
      intro _ k a b ha
      simp at ha
  | cons e l ih =>
      intro hnd k a b ha hb
      rw [List.map_cons, List.nodup_cons] at hnd
      rcases List.mem_cons.mp ha with ha' | ha' <;> rcases List.mem_cons.mp hb with hb' | hb'
      · exact congrArg Prod.snd (ha'.trans hb'.symm)
      · exfalso
        refine hnd.1 ?_
        rw [← ha']
        exact List.mem_map.mpr ⟨(k, b), hb', rfl⟩
      · exfalso
        refine hnd.1 ?_
        rw [← hb']
        exact List.mem_map.mpr ⟨(k, a), ha', rfl⟩
      · exact ih hnd.2 ha' hb'

/-- C3: an entry of the type map yields a type document exactly when it is
an object type, its name does not begin with the double-underscore
introspection prefix, and it is not — by reference identity — any of the
three root operation types. -/
theorem claim_C3_type_document_iff (s : GSchema) (tn : String) (nt : GNamedType)
    (hmem : (tn, nt) ∈ s.typeMap)
    (hkeys : (s.typeMap.map Prod.fst).Nodup) :
    (∃ doc ∈ generateTypes s, doc.name = tn) ↔
      (∃ o : GObjectType, nt = .object o
        ∧ strStartsWith tn "__" = false
        ∧ isSameRef o s.queryType = false
        ∧ isSameRef o s.mutationType = false
        ∧ isSameRef o s.subscriptionType = false) := by
  constructor
  · rintro ⟨doc, hdoc, hname⟩
    unfold generateTypes at hdoc
    rw [List.mem_filterMap] at hdoc
    obtain ⟨⟨tn', nt'⟩, hemem, hge⟩ := hdoc
    cases nt' with
    | other nm => simp at hge
    | object o =>
        dsimp only at hge
        split at hge
        · next hcond =>
            cases Option.some.inj hge
            have hdn : tn' = tn := by simpa using hname
            subst hdn
            have hnt : nt = GNamedType.object o := key_unique hkeys hmem hemem
            refine ⟨o, hnt, ?_⟩
            simp only [Bool.and_eq_true, Bool.not_eq_true'] at hcond
            exact ⟨hcond.1.1.1, hcond.1.1.2, hcond.1.2, hcond.2⟩
        · exact absurd hge (by simp)
  · rintro ⟨o, rfl, h1, h2, h3, h4⟩
    refine ⟨{ name := tn, content := typeMdxContent tn o }, ?_, rfl⟩
    unfold generateTypes
    rw [List.mem_filterMap]
    exact ⟨(tn, .object o), hmem, by simp [h1, h2, h3, h4]⟩

/-- Witness for C3 at the concrete schema: `Pet` yields a type document;
the introspection type `__Schema` satisfies no witness of the right-hand
side (its name starts with the prefix), and indeed yields no document. -/
theorem claim_C3_witness :
    (∃ doc ∈ generateTypes fxSchema, doc.name = "Pet")
    ∧ ¬ (∃ doc ∈ generateTypes fxSchema, doc.name = "__Schema") := by
  constructor
  · exact (claim_C3_type_document_iff fxSchema "Pet" (.object fxPet)
        (by decide) (by decide)).mpr
      ⟨fxPet, rfl, by decide, by decide, by decide, by decide⟩
  · intro hc
    obtain ⟨o, -, hsw, -⟩ := (claim_C3_type_document_iff fxSchema "__Schema"
        (.object { ref := 9, name := "__Schema", description := none, fields := [] })
        (by decide) (by decide)).mp hc
    exact absurd hsw (by decide)

/-- C8: in a successful run, every document is rendered and collected in
memory before the first filesystem effect; a failed schema load yields a
trace with no filesystem effect at all. -/
theorem claim_C8_generation_before_writes (output msg : String) (s : GSchema) :
    (∀ e ∈ generateAllTrace (.error msg) output, isFsEvent e = false)
  ∧ ∃ gen fs, generateAllTrace (.ok s) output = gen ++ fs
      ∧ gen.length = (generateOperations s).length + (generateTypes s).length
      ∧ (∀ e ∈ gen, isGenEvent e = true)
      ∧ (∀ e ∈ fs, isFsEvent e = true) := by
  constructor
  · intro e he
    simp only [generateAllTrace, List.mem_singleton] at he
    subst he
    rfl
  · refine ⟨(generateOperations s).map (fun o => .docGenerated o.name)
        ++ (generateTypes s).map (fun t => .docGenerated t.name),
      (generateOperations s).flatMap (fun o =>
          writeEvents (pathJoin output (operationPath o)) o.content)
        ++ (generateTypes s).flatMap (fun t =>
          writeEvents (pathJoin output (typePath t)) t.content),
      ?_, ?_, ?_, ?_⟩
    · simp [generateAllTrace, List.append_assoc]
    · simp
    · intro e he
      rcases List.mem_append.mp he with h | h <;>
        · obtain ⟨x, _, rfl⟩ := List.mem_map.mp h
          rfl
    · intro e he
      rcases List.mem_append.mp he with h | h <;>
        · obtain ⟨x, _, hin⟩ := List.mem_flatMap.mp h
          simp only [writeEvents, List.mem_cons, List.mem_singleton] at hin
          rcases hin with rfl | rfl | hin
          · rfl
          · rfl
          · simp at hin

/-- Witness for C8: the trace of a failed parse contains no filesystem
event; checked on its (only) element. -/
theorem claim_C8_witness :
    isFsEvent (Event.parseFailed "bad schema") = false :=
  (claim_C8_generation_before_writes "out" "bad schema" fxSchema).1
    (Event.parseFailed "bad schema") (by decide)

/-- The fields of an optional root type: none when the root is absent. -/
def rootFields : Option GObjectType → List GField
  | none => []
  | some t => t.fields

theorem fsWritePaths_flatMap {α : Type} (l : List α) (pf cf : α → String) :
    fsWritePaths (l.flatMap (fun x => writeEvents (pf x) (cf x))) = l.map pf := by
  induction l with
  | nil => rfl
  | cons x l ih =>
      simp only [List.flatMap_cons, fsWritePaths, List.filterMap_append] at *
      rw [ih]
      rfl

theorem fsWritePaths_map_docGenerated {α : Type} (l : List α) (nf : α → String) :
    fsWritePaths (l.map (fun x => Event.docGenerated (nf x))) = [] := by
  induction l with
  | nil => rfl
  | cons x l ih =>
      simp only [List.map_cons, fsWritePaths, List.filterMap_cons] at *
      exact ih

theorem opPaths_query (s : GSchema) (output : String) :
    (processFields s s.queryType).map (fun o => pathJoin output (operationPath o))
      = (rootFields s.queryType).map
          (fun f => pathJoin output ("query/" ++ f.name ++ ".mdx")) := by
  cases hq : s.queryType with
  | none => rfl
  | some q =>
      simp only [processFields, rootFields, List.map_map]
      refine List.map_congr_left ?_
      intro f _
      have hk : getOperationType s q = "query" := getOperationType_query hq
      refine String.ext ?_
      simp [Function.comp, operationPath, pathJoin, hk, strData_append,
        List.append_assoc]

theorem opPaths_mutation (s : GSchema) (output : String)
    (hroots : rootsDistinctB s = true) :
    (processFields s s.mutationType).map (fun o => pathJoin output (operationPath o))
      = (rootFields s.mutationType).map
          (fun f => pathJoin output ("mutation/" ++ f.name ++ ".mdx")) := by
  cases hm : s.mutationType with
  | none => rfl
  | some m =>
      simp only [processFields, rootFields, List.map_map]
      refine List.map_congr_left ?_
      intro f _
      have hk : getOperationType s m = "mutation" :=
        getOperationType_mutation hm (fun q hq => rootsDistinctB_qm hroots q m hq hm)
      refine String.ext ?_
      simp [Function.comp, operationPath, pathJoin, hk, strData_append,
        List.append_assoc]

theorem opPaths_subscription (s : GSchema) (output : String)
    (hroots : rootsDistinctB s = true) :
    (processFields s s.subscriptionType).map (fun o => pathJoin output (operationPath o))
      = (rootFields s.subscriptionType).map
          (fun f => pathJoin output ("subscription/" ++ f.name ++ ".mdx")) := by
  cases hb : s.subscriptionType with
  | none => rfl
  | some b =>
      simp only [processFields, rootFields, List.map_map]
      refine List.map_congr_left ?_
      intro f _
      have hk : getOperationType s b = "subscription" :=
        getOperationType_subscription hb
          (fun q hq => rootsDistinctB_qb hroots q b hq hb)
          (fun m hm => rootsDistinctB_mb hroots m b hm hb)
      refine String.ext ?_
      simp [Function.comp, operationPath, pathJoin, hk, strData_append,
        List.append_assoc]

/-- C10: the file writes of a successful run occur in a fixed total order:
the query root's fields, the mutation root's, the subscription root's, each
in declaration order, then the type documents in type-map iteration
order. -/
theorem claim_C10_write_order (s : GSchema) (output : String)
    (hroots : rootsDistinctB s = true) :
    fsWritePaths (generateAllTrace (.ok s) output) =
      (rootFields s.queryType).map
          (fun f => pathJoin output ("query/" ++ f.name ++ ".mdx"))
        ++ (rootFields s.mutationType).map
          (fun f => pathJoin output ("mutation/" ++ f.name ++ ".mdx"))
        ++ (rootFields s.subscriptionType).map
          (fun f => pathJoin output ("subscription/" ++ f.name ++ ".mdx"))
        ++ (generateTypes s).map
          (fun d => pathJoin output ("types/" ++ d.name ++ ".mdx")) := by
  have h1 : fsWritePaths (generateAllTrace (.ok s) output)
      = (generateOperations s).map (fun o => pathJoin output (operationPath o))
        ++ (generateTypes s).map (fun d => pathJoin output (typePath d)) := by
    simp only [generateAllTrace, fsWritePaths, List.filterMap_append]
    rw [show ∀ l₁ l₂ l₃ l₄ : List String, l₁ ++ l₂ ++ l₃ ++ l₄
        = (l₁ ++ l₂) ++ (l₃ ++ l₄) from by intro a b c d; simp [List.append_assoc]]
    have hg1 := fsWritePaths_map_docGenerated (generateOperations s) Operation.name
    have hg2 := fsWritePaths_map_docGenerated (generateTypes s) TypeDoc.name
    have hf1 := fsWritePaths_flatMap (generateOperations s)
      (fun o => pathJoin output (operationPath o)) Operation.content
    have hf2 := fsWritePaths_flatMap (generateTypes s)
      (fun t => pathJoin output (typePath t)) TypeDoc.content
    simp only [fsWritePaths] at hg1 hg2 hf1 hf2
    rw [hg1, hg2, hf1, hf2]
    simp
  rw [h1]
  unfold generateOperations
  rw [List.map_append, List.map_append,
    opPaths_query s output, opPaths_mutation s output hroots,
    opPaths_subscription s output hroots, List.append_assoc, List.append_assoc]
  simp [List.append_assoc, typePath]

/-- Witness for C10 at the concrete schema: the six writes come out in the
documented order. -/
theorem claim_C10_witness :
    fsWritePaths (generateAllTrace (.ok fxSchema) "docs") =
      ["docs/query/getKey.mdx", "docs/query/ping.mdx", "docs/mutation/addPet.mdx",
       "docs/subscription/petAdded.mdx", "docs/types/Pet.mdx", "docs/types/Unit.mdx"] := by
  rw [claim_C10_write_order fxSchema "docs" (by decide)]
  decide

/-! ### Path inventory for C1 -/

theorem pathInj (pre suf : String) : ∀ {a b : String},
    pre ++ a ++ suf = pre ++ b ++ suf → a = b := by
  intro a b h
  have hd := congrArg String.data h
  simp only [strData_append] at hd
  have h1 := List.append_cancel_right hd
  have h2 := List.append_cancel_left h1
  exact String.ext h2

theorem startsWith_head {s p : String} {c : Char} (h : strStartsWith s p = true)
    (hc : p.data.head? = some c) : s.data.head? = some c := by
  unfold strStartsWith at h
  have hpre : p.data <+: s.data := List.isPrefixOf_iff_prefix.mp h
  obtain ⟨t, ht⟩ := hpre
  cases hp : p.data with
  | nil => rw [hp] at hc; simp at hc
  | cons a l =>
      rw [hp] at hc ht
      rw [← ht]
      simpa using hc

theorem startsWith_excl {s p₁ p₂ : String} {c₁ c₂ : Char}
    (h1 : strStartsWith s p₁ = true) (hc1 : p₁.data.head? = some c₁)
    (hc2 : p₂.data.head? = some c₂) (hne : c₁ ≠ c₂) :
    strStartsWith s p₂ = false := by
  cases h2 : strStartsWith s p₂ with
  | false => rfl
  | true =>
      have ha := startsWith_head h1 hc1
      have hb := startsWith_head h2 hc2
      rw [ha] at hb
      exact absurd (Option.some.inj hb) hne

theorem relPaths_query (s : GSchema) :
    (processFields s s.queryType).map operationPath
      = (rootFields s.queryType).map (fun f => "query/" ++ f.name ++ ".mdx") := by
  cases hq : s.queryType with
  | none => rfl
  | some q =>
      simp only [processFields, rootFields, List.map_map]
      refine List.map_congr_left ?_
      intro f _
      have hk : getOperationType s q = "query" := getOperationType_query hq
      refine String.ext ?_
      simp [Function.comp, operationPath, hk, strData_append, List.append_assoc]

theorem relPaths_mutation (s : GSchema) (hroots : rootsDistinctB s = true) :
    (processFields s s.mutationType).map operationPath
      = (rootFields s.mutationType).map (fun f => "mutation/" ++ f.name ++ ".mdx") := by
  cases hm : s.mutationType with
  | none => rfl
  | some m =>
      simp only [processFields, rootFields, List.map_map]
      refine List.map_congr_left ?_
      intro f _
      have hk : getOperationType s m = "mutation" :=
        getOperationType_mutation hm (fun q hq => rootsDistinctB_qm hroots q m hq hm)
      refine String.ext ?_
      simp [Function.comp, operationPath, hk, strData_append, List.append_assoc]

theorem relPaths_subscription (s : GSchema) (hroots : rootsDistinctB s = true) :
    (processFields s s.subscriptionType).map operationPath
      = (rootFields s.subscriptionType).map
          (fun f => "subscription/" ++ f.name ++ ".mdx") := by
  cases hb : s.subscriptionType with
  | none => rfl
  | some b =>
      simp only [processFields, rootFields, List.map_map]
      refine List.map_congr_left ?_
      intro f _
      have hk : getOperationType s b = "subscription" :=
        getOperationType_subscription hb
          (fun q hq => rootsDistinctB_qb hroots q b hq hb)
          (fun m hm => rootsDistinctB_mb hroots m b hm hb)
      refine String.ext ?_
      simp [Function.comp, operationPath, hk, strData_append, List.append_assoc]

/-- The per-entry function of the `generateTypes` walk, named for proofs. -/
def gtEntry (s : GSchema) (e : String × GNamedType) : Option TypeDoc :=
  match e with
  | (typeName, GNamedType.object o) =>
      if !(strStartsWith typeName "__")
          && !(isSameRef o s.queryType)
          && !(isSameRef o s.mutationType)
          && !(isSameRef o s.subscriptionType) then
        some { name := typeName, content := typeMdxContent typeName o }
      else none
  | (_, GNamedType.other _) => none

theorem generateTypes_eq (s : GSchema) :
    generateTypes s = s.typeMap.filterMap (gtEntry s) := rfl

theorem generateTypes_names (s : GSchema) :
    (generateTypes s).map TypeDoc.name
      = (s.typeMap.filter (fun e => keepsTypeEntry s e.1 e.2)).map Prod.fst := by
  rw [generateTypes_eq]
  suffices h : ∀ l : List (String × GNamedType),
      (l.filterMap (gtEntry s)).map TypeDoc.name
      = (l.filter (fun e => keepsTypeEntry s e.1 e.2)).map Prod.fst from h s.typeMap
  intro l
  induction l with
  | nil => rfl
  | cons e l ih =>
      obtain ⟨tn, nt⟩ := e
      cases nt with
      | other nm => exact ih
      | object o =>
          rw [List.filterMap_cons, List.filter_cons]
          dsimp only
          have hg : gtEntry s (tn, GNamedType.object o)
              = (if keepsTypeEntry s tn (GNamedType.object o) then
                  some { name := tn, content := typeMdxContent tn o }
                else none) := rfl
          rw [hg]
          cases hC : keepsTypeEntry s tn (GNamedType.object o) with
          | false => exact ih
          | true => exact congrArg (List.cons tn) ih

theorem generateTypes_length (s : GSchema) :
    (generateTypes s).length
      = (s.typeMap.filter (fun e => keepsTypeEntry s e.1 e.2)).length := by
  have h := congrArg List.length (generateTypes_names s)
  simpa using h

/-- C1: a run over a schema with `N` query fields, `M` mutation fields, `K`
subscription fields and `T` kept (object, non-root, non-introspection) type
map entries emits exactly `N+M+K+T` documents; all output paths are
distinct; every path lies in one of the four directories, and the four
directory prefixes are mutually exclusive. -/
theorem claim_C1_path_partition (s : GSchema)
    (hroots : rootsDistinctB s = true)
    (hq : ((rootFields s.queryType).map GField.name).Nodup)
    (hm : ((rootFields s.mutationType).map GField.name).Nodup)
    (hb : ((rootFields s.subscriptionType).map GField.name).Nodup)
    (hkeys : (s.typeMap.map Prod.fst).Nodup) :
    (relOutputPaths s).length
        = (rootFields s.queryType).length + (rootFields s.mutationType).length
          + (rootFields s.subscriptionType).length
          + (s.typeMap.filter (fun e => keepsTypeEntry s e.1 e.2)).length
    ∧ (relOutputPaths s).Nodup
    ∧ (∀ p ∈ relOutputPaths s,
        strStartsWith p "query/" = true ∨ strStartsWith p "mutation/" = true
        ∨ strStartsWith p "subscription/" = true ∨ strStartsWith p "types/" = true)
    ∧ (∀ p : String,
        (strStartsWith p "query/" = true →
          strStartsWith p "mutation/" = false
          ∧ strStartsWith p "subscription/" = false
          ∧ strStartsWith p "types/" = false)
      ∧ (strStartsWith p "mutation/" = true →
          strStartsWith p "subscription/" = false
          ∧ strStartsWith p "types/" = false)
      ∧ (strStartsWith p "subscription/" = true →
          strStartsWith p "types/" = false)) := by
  have hsplit : relOutputPaths s
      = (rootFields s.queryType).map (fun f => "query/" ++ f.name ++ ".mdx")
        ++ ((rootFields s.mutationType).map (fun f => "mutation/" ++ f.name ++ ".mdx")
        ++ ((rootFields s.subscriptionType).map
              (fun f => "subscription/" ++ f.name ++ ".mdx")
        ++ (generateTypes s).map typePath)) := by
    unfold relOutputPaths generateOperations
    rw [List.map_append, List.map_append, relPaths_query s,
      relPaths_mutation s hroots, relPaths_subscription s hroots,
      List.append_assoc, List.append_assoc]
  have hQh : ∀ p ∈ (rootFields s.queryType).map (fun f => "query/" ++ f.name ++ ".mdx"),
      p.data.head? = some 'q' := by
    intro p hp
    obtain ⟨f, -, rfl⟩ := List.mem_map.mp hp
    rfl
  have hMh : ∀ p ∈ (rootFields s.mutationType).map
      (fun f => "mutation/" ++ f.name ++ ".mdx"), p.data.head? = some 'm' := by
    intro p hp
    obtain ⟨f, -, rfl⟩ := List.mem_map.mp hp
    rfl
  have hSh : ∀ p ∈ (rootFields s.subscriptionType).map
      (fun f => "subscription/" ++ f.name ++ ".mdx"), p.data.head? = some 's' := by
    intro p hp
    obtain ⟨f, -, rfl⟩ := List.mem_map.mp hp
    rfl
  have hTh : ∀ p ∈ (generateTypes s).map typePath, p.data.head? = some 't' := by
    intro p hp
    obtain ⟨d, -, rfl⟩ := List.mem_map.mp hp
    rfl
  have disjOf : ∀ {l₁ l₂ : List String} {c₁ c₂ : Char}, c₁ ≠ c₂ →
      (∀ p ∈ l₁, p.data.head? = some c₁) → (∀ p ∈ l₂, p.data.head? = some c₂) →
      l₁.Disjoint l₂ := by
    intro l₁ l₂ c₁ c₂ hne h1 h2 a ha hb
    exact hne (Option.some.inj ((h1 a ha).symm.trans (h2 a hb)))
  have hnodup : (relOutputPaths s).Nodup := by
    rw [hsplit]
    refine List.Nodup.append ?_ (List.Nodup.append ?_ (List.Nodup.append ?_ ?_ ?_) ?_) ?_
    · rw [show List.map (fun f : GField => "query/" ++ f.name ++ ".mdx")
          (rootFields s.queryType)
          = List.map (fun nm => "query/" ++ nm ++ ".mdx")
              (List.map GField.name (rootFields s.queryType)) from by
        rw [List.map_map]
        exact List.map_congr_left (fun f _ => rfl)]
      exact hq.map (fun a b hab => pathInj "query/" ".mdx" hab)
    · rw [show List.map (fun f : GField => "mutation/" ++ f.name ++ ".mdx")
          (rootFields s.mutationType)
          = List.map (fun nm => "mutation/" ++ nm ++ ".mdx")
              (List.map GField.name (rootFields s.mutationType)) from by
        rw [List.map_map]
        exact List.map_congr_left (fun f _ => rfl)]
      exact hm.map (fun a b hab => pathInj "mutation/" ".mdx" hab)
    · rw [show List.map (fun f : GField => "subscription/" ++ f.name ++ ".mdx")
          (rootFields s.subscriptionType)
          = List.map (fun nm => "subscription/" ++ nm ++ ".mdx")
              (List.map GField.name (rootFields s.subscriptionType)) from by
        rw [List.map_map]
        exact List.map_congr_left (fun f _ => rfl)]
      exact hb.map (fun a b hab => pathInj "subscription/" ".mdx" hab)
    · have hnames : ((generateTypes s).map TypeDoc.name).Nodup := by
        rw [generateTypes_names]
        exact (hkeys.sublist ((List.filter_sublist _).map Prod.fst))
      rw [show (generateTypes s).map typePath
          = ((generateTypes s).map TypeDoc.name).map
              (fun nm => "types/" ++ nm ++ ".mdx") from by
        rw [List.map_map]
        exact List.map_congr_left (fun d _ => rfl)]
      exact hnames.map (fun a b hab => pathInj "types/" ".mdx" hab)
    · exact disjOf (by decide) hSh hTh
    · rw [List.disjoint_append_right]
      exact ⟨disjOf (by decide) hMh hSh, disjOf (by decide) hMh hTh⟩
    · rw [List.disjoint_append_right, List.disjoint_append_right]
      exact ⟨disjOf (by decide) hQh hMh,
        disjOf (by decide) hQh hSh, disjOf (by decide) hQh hTh⟩
  refine ⟨?_, hnodup, ?_, ?_⟩
  · rw [hsplit]
    simp [generateTypes_length s]
    omega
  · intro p hp
    rw [hsplit] at hp
    rcases List.mem_append.mp hp with h | h
    · obtain ⟨f, -, rfl⟩ := List.mem_map.mp h
      left
      simp [strStartsWith, strData_append, List.isPrefixOf_iff_prefix,
        List.append_assoc]
    rcases List.mem_append.mp h with h | h
    · obtain ⟨f, -, rfl⟩ := List.mem_map.mp h
      right; left
      simp [strStartsWith, strData_append, List.isPrefixOf_iff_prefix,
        List.append_assoc]
    rcases List.mem_append.mp h with h | h
    · obtain ⟨f, -, rfl⟩ := List.mem_map.mp h
      right; right; left
      simp [strStartsWith, strData_append, List.isPrefixOf_iff_prefix,
        List.append_assoc]
    · obtain ⟨d, -, rfl⟩ := List.mem_map.mp h
      right; right; right
      simp [strStartsWith, typePath, strData_append, List.isPrefixOf_iff_prefix,
        List.append_assoc]
  · intro p
    refine ⟨?_, ?_, ?_⟩
    · intro h
      exact ⟨startsWith_excl h rfl rfl (by decide),
        startsWith_excl h rfl rfl (by decide),
        startsWith_excl h rfl rfl (by decide)⟩
    · intro h
      exact ⟨startsWith_excl h rfl rfl (by decide),
        startsWith_excl h rfl rfl (by decide)⟩
    · intro h
      exact startsWith_excl h rfl rfl (by decide)

/-- Witness for C1 at the concrete schema: 2 query fields, 1 mutation
field, 1 subscription field and 2 kept types give 6 pairwise distinct
paths. -/
theorem claim_C1_witness :
    (relOutputPaths fxSchema).length = 6 ∧ (relOutputPaths fxSchema).Nodup := by
  have h := claim_C1_path_partition fxSchema (by decide) (by decide) (by decide)
    (by decide) (by decide)
  exact ⟨h.1.trans (by decide), h.2.1⟩

/-- C4: every operation document begins with a front-matter block whose
`title:` line carries the raw field name and whose `description:` line
carries the field's own description when present, and the synthesized
fallback `Description for <name>` when absent. -/
theorem claim_C4_operation_front_matter (f : GField)
    (hn : saneNameB f.name = true)
    (hd : ∀ d, f.description = some d → endsNonWsB d = true)
    (ha : ∀ a ∈ f.args, endsNonWsB a.typeSignature = true) :
    ("---\ntitle: " ++ f.name ++ "\ndescription: "
      ++ (f.description.getD ("Description for " ++ f.name))
      ++ "\n---\n").data <+: (opMdxContent f).data := by
  rw [opMdxContent_eq f hn hd ha]
  refine ⟨("\n# " ++ f.name ++ opTailStr f).data, ?_⟩
  simp [opFront, strData_append, List.append_assoc]

/-- Witness for C4: the argument-free description-free `getKey` field gets
the synthesized description, and the described `ping` field keeps its
own. -/
theorem claim_C4_witness :
    ("---\ntitle: getKey\ndescription: Description for getKey\n---\n").data
      <+: (opMdxContent fxGetKey).data
    ∧ ("---\ntitle: ping\ndescription: Health check.\n---\n").data
      <+: (opMdxContent fxPing).data := by
  constructor
  · exact claim_C4_operation_front_matter fxGetKey (by decide)
      (fun d h => Option.noConfusion h) (by decide)
  · exact claim_C4_operation_front_matter fxPing (by decide)
      (by intro d h; cases h; decide) (by decide)

/-- C5 counterexample: the described type `Pet` does not carry its own
description in the front matter — the claim's predicted prefix is absent
and the synthesized one is present instead. -/
theorem claim_C5_counterexample :
    ¬ (("---\ntitle: Pet\ndescription: A pet.\n---\n").data
        <+: (typeMdxContent "Pet" fxPet).data)
    ∧ ("---\ntitle: Pet\ndescription: Type definition for Pet\n---\n").data
        <+: (typeMdxContent "Pet" fxPet).data := by
  constructor
  · decide
  · decide

/-- C5 amended: every type document's front-matter `description:` is the
synthesized `Type definition for <name>`, regardless of whether the type
carries its own description (which appears only in the body). -/
theorem claim_C5_type_front_matter (tn : String) (t : GObjectType)
    (hn : saneNameB tn = true)
    (hd : ∀ d, t.description = some d → endsNonWsB d = true)
    (hf : ∀ fl ∈ t.fields, endsNonWsB fl.typeSignature = true) :
    ("---\ntitle: " ++ tn ++ "\ndescription: Type definition for " ++ tn
      ++ "\n---\n").data <+: (typeMdxContent tn t).data := by
  rw [typeMdxContent_eq tn t hn hd hf]
  refine ⟨("\n  # " ++ tn ++ typeTailStr t).data, ?_⟩
  simp [typeFront, strData_append, List.append_assoc]

/-- Witness for C5 (amended) at the described type `Pet`. -/
theorem claim_C5_witness :
    ("---\ntitle: Pet\ndescription: Type definition for Pet\n---\n").data
      <+: (typeMdxContent "Pet" fxPet).data :=
  claim_C5_type_front_matter "Pet" fxPet (by decide)
    (by intro d h; cases h; decide) (by decide)

theorem count_hash_opMdxRaw (f : GField) (hargs : f.args = [])
    (hn : hashFreeB f.name = true)
    (hd : ∀ d, f.description = some d → hashFreeB d = true) :
    (opMdxRaw f).data.count '#' = 1 := by
  obtain ⟨n, D, args, sig⟩ := f
  subst hargs
  have hn0 : n.data.count '#' = 0 := hashFreeB_count hn
  have l1 : ("\n---\ntitle: " : String).data.count '#' = 0 := by decide
  have l2 : ("\ndescription: " : String).data.count '#' = 0 := by decide
  have l3 : ("Description for " : String).data.count '#' = 0 := by decide
  have l4 : ("\n---\n\n# " : String).data.count '#' = 1 := by decide
  have l5 : ("\n\n\n" : String).data.count '#' = 0 := by decide
  have l6 : ("\n\n" : String).data.count '#' = 0 := by decide
  have l7 : ("\n      " : String).data.count '#' = 0 := by decide
  have l8 : ("" : String).data.count '#' = 0 := by decide
  unfold opMdxRaw
  cases D with
  | none =>
      simp only [strData_append, List.count_append, Option.getD_none, opArgStrings,
        List.map_nil, List.length_nil, gt_iff_lt, lt_self_iff_false, if_false,
        l1, l2, l3, l4, l5, l6, l7, l8, hn0]
  | some d =>
      have hd0 : d.data.count '#' = 0 := hashFreeB_count (hd d rfl)
      simp only [strData_append, List.count_append, Option.getD_some, opArgStrings,
        List.map_nil, List.length_nil, gt_iff_lt, lt_self_iff_false, if_false,
        l1, l2, l3, l4, l5, l6, l7, l8, hn0, hd0]

theorem count_hash_typeMdxRaw (tn : String) (t : GObjectType)
    (hfields : t.fields = [])
    (hn : hashFreeB tn = true)
    (hd : ∀ d, t.description = some d → hashFreeB d = true) :
    (typeMdxRaw tn t).data.count '#' = 1 := by
  obtain ⟨r, tnm, D, fields⟩ := t
  subst hfields
  have hn0 : tn.data.count '#' = 0 := hashFreeB_count hn
  have l1 : ("\n---\ntitle: " : String).data.count '#' = 0 := by decide
  have l2 : ("\ndescription: Type definition for " : String).data.count '#' = 0 := by
    decide
  have l3 : ("\n---\n\n  # " : String).data.count '#' = 1 := by decide
  have l4 : ("\n\n  " : String).data.count '#' = 0 := by decide
  have l5 : ("\n\n " : String).data.count '#' = 0 := by decide
  have l6 : ("" : String).data.count '#' = 0 := by decide
  unfold typeMdxRaw
  cases D with
  | none =>
      simp only [strData_append, List.count_append, Option.getD_none, typeFieldDefs,
        List.map_nil, List.length_nil, gt_iff_lt, lt_self_iff_false, if_false,
        l1, l2, l3, l4, l5, l6, hn0]
  | some d =>
      have hd0 : d.data.count '#' = 0 := hashFreeB_count (hd d rfl)
      simp only [strData_append, List.count_append, Option.getD_some, typeFieldDefs,
        List.map_nil, List.length_nil, gt_iff_lt, lt_self_iff_false, if_false,
        l1, l2, l3, l4, l5, l6, hn0, hd0]

/-- C6: a member with an empty argument (respectively field) list renders
no `## Arguments` (`## Fields`) section at all — the marker does not occur
in the content — while a member with a non-empty list renders the section
listing each entry as `- <name>: <typeSignature>` in declaration order.
The no-section halves assume the member's name and description contain no
hash character, so that no marker can leak in from user-supplied text. -/
theorem claim_C6_section_omission_and_listing :
    (∀ f : GField, hashFreeB f.name = true →
      (∀ d, f.description = some d → hashFreeB d = true) →
      f.args = [] →
      ¬ ("## Arguments".data <:+: (opMdxContent f).data))
  ∧ (∀ f : GField, saneNameB f.name = true →
      (∀ d, f.description = some d → endsNonWsB d = true) →
      (∀ a ∈ f.args, endsNonWsB a.typeSignature = true) →
      f.args ≠ [] →
      ("## Arguments\n\n"
        ++ joinNl (f.args.map (fun a => "- " ++ (a.name ++ ": " ++ a.typeSignature)))).data
        <:+: (opMdxContent f).data)
  ∧ (∀ (tn : String) (t : GObjectType), hashFreeB tn = true →
      (∀ d, t.description = some d → hashFreeB d = true) →
      t.fields = [] →
      ¬ ("## Fields".data <:+: (typeMdxContent tn t).data))
  ∧ (∀ (tn : String) (t : GObjectType), saneNameB tn = true →
      (∀ d, t.description = some d → endsNonWsB d = true) →
      (∀ fl ∈ t.fields, endsNonWsB fl.typeSignature = true) →
      t.fields ≠ [] →
      ("## Fields\n\n"
        ++ joinNl (t.fields.map (fun fl => "- " ++ fl.name ++ ": " ++ fl.typeSignature))).data
        <:+: (typeMdxContent tn t).data) := by
  refine ⟨?_, ?_, ?_, ?_⟩
  · intro f hn hd hargs
    refine not_infix_of_count_hash_lt ?_
    have h1 : (opMdxContent f).data.count '#' ≤ (opMdxRaw f).data.count '#' :=
      (jsTrim_data_sublist (opMdxRaw f)).count_le '#'
    have h2 := count_hash_opMdxRaw f hargs hn hd
    have h3 : ("## Arguments" : String).data.count '#' = 2 := by decide
    omega
  · intro f hn hd ha hne
    have he : ("## Arguments\n\n"
        ++ joinNl (f.args.map (fun a => "- " ++ (a.name ++ ": " ++ a.typeSignature))))
        = opArgsSection f := by
      unfold opArgsSection opArgStrings
      rw [List.map_map]
      exact congrArg (fun x => "## Arguments\n\n" ++ joinNl x)
        (List.map_congr_left (fun a _ => rfl))
    rw [he, opMdxContent_eq f hn hd ha]
    obtain ⟨n, D, args, sig⟩ := f
    cases args with
    | nil => exact absurd rfl hne
    | cons a as =>
        cases D with
        | none =>
            refine ⟨(opFront ⟨n, none, a :: as, sig⟩ ++ "\n\n\n\n\n").data, [], ?_⟩
            simp [opTailStr, strData_append, List.append_assoc]
        | some d =>
            refine ⟨(opFront ⟨n, some d, a :: as, sig⟩ ++ "\n\n\n" ++ d
              ++ "\n\n").data, [], ?_⟩
            simp [opTailStr, strData_append, List.append_assoc]
  · intro tn t hn hd hfields
    refine not_infix_of_count_hash_lt ?_
    have h1 : (typeMdxContent tn t).data.count '#' ≤ (typeMdxRaw tn t).data.count '#' :=
      (jsTrim_data_sublist (typeMdxRaw tn t)).count_le '#'
    have h2 := count_hash_typeMdxRaw tn t hfields hn hd
    have h3 : ("## Fields" : String).data.count '#' = 2 := by decide
    omega
  · intro tn t hn hd hf hne
    have he : ("## Fields\n\n"
        ++ joinNl (t.fields.map (fun fl => "- " ++ fl.name ++ ": " ++ fl.typeSignature)))
        = typeFieldsSection t := rfl
    rw [he, typeMdxContent_eq tn t hn hd hf]
    obtain ⟨r, tnm, D, fields⟩ := t
    cases fields with
    | nil => exact absurd rfl hne
    | cons fl fls =>
        cases D with
        | none =>
            refine ⟨(typeFront tn ++ "\n\n  \n\n  ").data, [], ?_⟩
            simp [typeTailStr, strData_append, List.append_assoc]
        | some d =>
            refine ⟨(typeFront tn ++ "\n\n  " ++ d ++ "\n\n  ").data, [], ?_⟩
            simp [typeTailStr, strData_append, List.append_assoc]

/-- Witness for C6 at the concrete members: the argument-free `ping` field
has no Arguments marker, `getKey` lists its one argument, the field-free
`Unit` type has no Fields marker, and `Pet` lists both fields in order. -/
theorem claim_C6_witness :
    ¬ ("## Arguments".data <:+: (opMdxContent fxPing).data)
    ∧ ("## Arguments\n\n- id: ID").data <:+: (opMdxContent fxGetKey).data
    ∧ ¬ ("## Fields".data <:+: (typeMdxContent "Unit" fxUnit).data)
    ∧ ("## Fields\n\n- id: ID\n- petName: String").data
        <:+: (typeMdxContent "Pet" fxPet).data := by
  obtain ⟨hno, hya, htno, htya⟩ := claim_C6_section_omission_and_listing
  refine ⟨?_, ?_, ?_, ?_⟩
  · exact hno fxPing (by decide) (by intro d h; cases h; decide) rfl
  · exact hya fxGetKey (by decide) (fun d h => Option.noConfusion h) (by decide)
      (by decide)
  · exact htno "Unit" fxUnit (by decide) (fun d h => Option.noConfusion h) rfl
  · exact htya "Pet" fxPet (by decide) (by intro d h; cases h; decide) (by decide)
      (by decide)

/-! ### Lines of a document, for the heading claims -/

/-- Split a character list at newlines, keeping empty lines, as a text
editor displays it. -/
def linesOf : List Char → List (List Char)
  | [] => [[]]
  | c :: cs =>
      if c = '\n' then [] :: linesOf cs
      else
        match linesOf cs with
        | [] => [[c]]
        | l :: ls => (c :: l) :: ls

/-- The document `s` contains `line` as a full line. -/
def hasLine (s line : String) : Prop :=
  line.data ∈ linesOf s.data

instance (s line : String) : Decidable (hasLine s line) := by
  unfold hasLine
  infer_instance

theorem linesOf_ne_nil (l : List Char) : linesOf l ≠ [] := by
  cases l with
  | nil => simp [linesOf]
  | cons c cs =>
      unfold linesOf
      split
      · simp
      · split
        · simp
        · simp

theorem linesOf_cons_newline (l : List Char) :
    linesOf ('\n' :: l) = [] :: linesOf l := by
  conv_lhs => rw [linesOf]
  rw [if_pos rfl]

theorem linesOf_cons_other {c : Char} (hc : c ≠ '\n') (l : List Char) :
    linesOf (c :: l) =
      match linesOf l with
      | [] => [[c]]
      | x :: xs => (c :: x) :: xs := by
  conv_lhs => rw [linesOf]
  rw [if_neg hc]

theorem linesOf_append (A B : List Char) :
    linesOf (A ++ '\n' :: B) = linesOf A ++ linesOf B := by
  induction A with
  | nil => rfl
  | cons c cs ih =>
      rw [List.cons_append]
      by_cases hc : c = '\n'
      · subst hc
        rw [linesOf_cons_newline, linesOf_cons_newline, ih]
        rfl
      · rw [linesOf_cons_other hc, linesOf_cons_other hc, ih]
        cases h : linesOf cs with
        | nil => exact absurd h (linesOf_ne_nil cs)
        | cons l ls => rfl

theorem linesOf_noNewline (l : List Char) (h : ∀ c ∈ l, c ≠ '\n') :
    linesOf l = [l] := by
  induction l with
  | nil => rfl
  | cons c cs ih =>
      unfold linesOf
      rw [if_neg (h c (by simp))]
      rw [ih (fun x hx => h x (by simp [hx]))]

theorem mem_linesOf_mid {P H R : List Char} (hH : ∀ c ∈ H, c ≠ '\n') :
    H ∈ linesOf (P ++ '\n' :: (H ++ '\n' :: R)) := by
  rw [linesOf_append, linesOf_append, linesOf_noNewline H hH]
  simp

theorem mem_linesOf_last {P H : List Char} (hH : ∀ c ∈ H, c ≠ '\n') :
    H ∈ linesOf (P ++ '\n' :: H) := by
  rw [linesOf_append, linesOf_noNewline H hH]
  simp

theorem heading_noNewline {pre n : String} (hpre : ∀ c ∈ pre.data, c ≠ '\n')
    (hn : saneNameB n = true) : ∀ c ∈ (pre ++ n).data, c ≠ '\n' := by
  intro c hc heq
  subst heq
  rw [strData_append] at hc
  rcases List.mem_append.mp hc with h | h
  · exact hpre _ h rfl
  · exact absurd (saneNameB_nonWs hn _ h) (by decide)

/-- C7 counterexample: the type document for `Pet` has no line `# Pet` —
its level-1 heading line is indented two spaces by the template. -/
theorem claim_C7_counterexample :
    ¬ hasLine (typeMdxContent "Pet" fxPet) ("# " ++ "Pet")
    ∧ hasLine (typeMdxContent "Pet" fxPet) ("  # " ++ "Pet") := by
  constructor
  · decide
  · decide

/-- C7 amended: every operation document contains the full line
`# <name>`; every type document contains the full line `  # <name>` — the
raw member name in a level-1 heading, indented by two spaces in the type
template (still a Markdown ATX heading, since the indentation is under four
spaces). -/
theorem claim_C7_heading_lines :
    (∀ f : GField, saneNameB f.name = true →
      (∀ d, f.description = some d → endsNonWsB d = true) →
      (∀ a ∈ f.args, endsNonWsB a.typeSignature = true) →
      hasLine (opMdxContent f) ("# " ++ f.name))
  ∧ (∀ (tn : String) (t : GObjectType), saneNameB tn = true →
      (∀ d, t.description = some d → endsNonWsB d = true) →
      (∀ fl ∈ t.fields, endsNonWsB fl.typeSignature = true) →
      hasLine (typeMdxContent tn t) ("  # " ++ tn)) := by
  constructor
  · intro f hn hd ha
    have hH : ∀ c ∈ ("# " ++ f.name).data, c ≠ '\n' :=
      heading_noNewline (by decide) hn
    unfold hasLine
    rw [opMdxContent_eq f hn hd ha]
    obtain ⟨n, D, args, sig⟩ := f
    cases D with
    | none =>
        cases args with
        | nil =>
            rw [show (opFront ⟨n, none, [], sig⟩ ++ opTailStr ⟨n, none, [], sig⟩).data
                = ("---\ntitle: " ++ n ++ "\ndescription: "
                    ++ ("Description for " ++ n) ++ "\n---\n").data
                  ++ '\n' :: ("# " ++ n).data from by
              simp [opFront, opTailStr, strData_append, List.append_assoc]]
            exact mem_linesOf_last hH
        | cons a as =>
            rw [show (opFront ⟨n, none, a :: as, sig⟩
                  ++ opTailStr ⟨n, none, a :: as, sig⟩).data
                = ("---\ntitle: " ++ n ++ "\ndescription: "
                    ++ ("Description for " ++ n) ++ "\n---\n").data
                  ++ '\n' :: (("# " ++ n).data
                  ++ '\n' :: ("\n\n\n\n" ++ opArgsSection ⟨n, none, a :: as, sig⟩).data)
                from by
              simp [opFront, opTailStr, strData_append, List.append_assoc]]
            exact mem_linesOf_mid hH
    | some d =>
        cases args with
        | nil =>
            rw [show (opFront ⟨n, some d, [], sig⟩ ++ opTailStr ⟨n, some d, [], sig⟩).data
                = ("---\ntitle: " ++ n ++ "\ndescription: " ++ d ++ "\n---\n").data
                  ++ '\n' :: (("# " ++ n).data ++ '\n' :: ("\n\n" ++ d).data) from by
              simp [opFront, opTailStr, strData_append, List.append_assoc]]
            exact mem_linesOf_mid hH
        | cons a as =>
            rw [show (opFront ⟨n, some d, a :: as, sig⟩
                  ++ opTailStr ⟨n, some d, a :: as, sig⟩).data
                = ("---\ntitle: " ++ n ++ "\ndescription: " ++ d ++ "\n---\n").data
                  ++ '\n' :: (("# " ++ n).data
                  ++ '\n' :: ("\n\n" ++ d ++ "\n\n"
                      ++ opArgsSection ⟨n, some d, a :: as, sig⟩).data) from by
              simp [opFront, opTailStr, strData_append, List.append_assoc]]
            exact mem_linesOf_mid hH
  · intro tn t hn hd hf
    have hH : ∀ c ∈ ("  # " ++ tn).data, c ≠ '\n' :=
      heading_noNewline (by decide) hn
    unfold hasLine
    rw [typeMdxContent_eq tn t hn hd hf]
    obtain ⟨r, tnm, D, fields⟩ := t
    cases D with
    | none =>
        cases fields with
        | nil =>
            rw [show (typeFront tn ++ typeTailStr ⟨r, tnm, none, []⟩).data
                = ("---\ntitle: " ++ tn ++ "\ndescription: Type definition for "
                    ++ tn ++ "\n---\n").data ++ '\n' :: ("  # " ++ tn).data from by
              simp [typeFront, typeTailStr, strData_append, List.append_assoc]]
            exact mem_linesOf_last hH
        | cons fl fls =>
            rw [show (typeFront tn ++ typeTailStr ⟨r, tnm, none, fl :: fls⟩).data
                = ("---\ntitle: " ++ tn ++ "\ndescription: Type definition for "
                    ++ tn ++ "\n---\n").data
                  ++ '\n' :: (("  # " ++ tn).data
                  ++ '\n' :: ("\n  \n\n  "
                      ++ typeFieldsSection ⟨r, tnm, none, fl :: fls⟩).data) from by
              simp [typeFront, typeTailStr, strData_append, List.append_assoc]]
            exact mem_linesOf_mid hH
    | some d =>
        cases fields with
        | nil =>
            rw [show (typeFront tn ++ typeTailStr ⟨r, tnm, some d, []⟩).data
                = ("---\ntitle: " ++ tn ++ "\ndescription: Type definition for "
                    ++ tn ++ "\n---\n").data
                  ++ '\n' :: (("  # " ++ tn).data ++ '\n' :: ("\n  " ++ d).data)
                from by
              simp [typeFront, typeTailStr, strData_append, List.append_assoc]]
            exact mem_linesOf_mid hH
        | cons fl fls =>
            rw [show (typeFront tn ++ typeTailStr ⟨r, tnm, some d, fl :: fls⟩).data
                = ("---\ntitle: " ++ tn ++ "\ndescription: Type definition for "
                    ++ tn ++ "\n---\n").data
                  ++ '\n' :: (("  # " ++ tn).data
                  ++ '\n' :: ("\n  " ++ d ++ "\n\n  "
                      ++ typeFieldsSection ⟨r, tnm, some d, fl :: fls⟩).data) from by
              simp [typeFront, typeTailStr, strData_append, List.append_assoc]]
            exact mem_linesOf_mid hH

/-- Witness for C7 (amended): the heading lines of the concrete operation
and type documents. -/
theorem claim_C7_witness :
    hasLine (opMdxContent fxGetKey) ("# " ++ "getKey")
    ∧ hasLine (typeMdxContent "Pet" fxPet) ("  # " ++ "Pet") := by
  obtain ⟨hop, hty⟩ := claim_C7_heading_lines
  exact ⟨hop fxGetKey (by decide) (fun d h => Option.noConfusion h) (by decide),
    hty "Pet" fxPet (by decide) (by intro d h; cases h; decide) (by decide)⟩

/-- C9 counterexample: the formatter does not split a digit sequence off a
preceding letter — `requestId30` formats to `Request Id30`, not the
claimed `Request Id 30`. -/
theorem claim_C9_counterexample :
    idToTitle "requestId30" = "Request Id30"
    ∧ idToTitle "requestId30" ≠ "Request Id 30" := by
  constructor
  · decide
  · decide

/-- C9 amended: the formatter inserts no boundary between a letter and a
following digit sequence: `requestId30` yields `Request Id30`, while
`getKey` yields `Get Key` and `requestId-30` yields `Request Id 30` (the
hyphen, not the digits, makes the boundary). -/
theorem claim_C9_title_formatter :
    idToTitle "getKey" = "Get Key"
    ∧ idToTitle "requestId30" = "Request Id30"
    ∧ idToTitle "requestId-30" = "Request Id 30" := by
  refine ⟨?_, ?_, ?_⟩ <;> decide

end GraphQLDocs
